import Mathlib

/-!
Shallow embedding of the weather-prediction core of the repository
(`data_fetching.py`, `weather_predictor.py`) and proofs about it.

Conventions of the embedding:
* Machine floats are modelled by an arbitrary linear ordered field `α`
  (exact arithmetic); concrete witnesses instantiate `α := ℚ`,
  real-analytic facts instantiate `α := ℝ`.
* A possibly-missing value (IEEE NaN in the source data) is `Option α`;
  `none` is NaN.  `np.nanmean` of an all-NaN slice is NaN in numpy; the
  model returns the junk value `0` there (documented below); no claim
  exercises that corner.
* `np.exp`, `np.sqrt` and `np.linalg.eigh` are library calls, not source
  code of the repository; they enter the model as explicit oracle
  parameters `expf`, `sqrtf` and `eigh`.  Real-number theorems
  instantiate `expf := Real.exp`; concrete witnesses instantiate `eigh`
  with the exact eigendecomposition of a diagonal matrix.
* Fallible code is `Except String`; the three failure points of the
  pipeline are the all-fetches-failed `RuntimeError` in `predict`, the
  `KeyError` that `prepare_daily_data` raises at line 81 when exactly
  one year was fetched (`squeeze(drop=True)` at line 75 removes the
  then-singleton `year` dimension and drops its coordinate), and the
  `ZeroDivisionError` / length-mismatch errors `np.average` raises
  inside `weighted_pca` when no usable sample (or a mismatched weight
  vector) reaches it.
* `xr.concat(all_years_ds, dim="year")` at line 67 uses the default
  outer join: the per-year hourly `time` axes (disjoint across years)
  are merged into one union axis with NaN fill.  Every year slice of
  the combined dataset therefore carries the same union `time` axis,
  which makes the per-year day-of-year sets of lines 84-88 coincide
  and the set intersection of line 90 degenerate to the union.
-/

section Model

variable {α : Type} [LinearOrderedField α]

/-- Number of physical variables: `self.parameters` has the 7 entries
`PRECTOTCORR, T2M, RH2M, CLOUD_AMT, WS10M, ALLSKY_SFC_SW_DWN, T2MDEW`
(in this order; index 0 is precipitation). -/
def nVars : ℕ := 7

/-- Arithmetic mean `np.mean`; the mean of an empty list is modelled as 0
(numpy yields NaN there). -/
def meanL (l : List α) : α := l.sum / (l.length : α)

/-- `np.nanmean` on a slice of possibly-missing values: the mean of the
present values, or NaN (`none`) when none are present. -/
def nanmean (l : List (Option α)) : Option α :=
  let xs := l.filterMap id
  if xs.isEmpty then none else some (meanL xs)

/-- `np.cumsum`. -/
def cumsum (l : List α) : List α :=
  (List.range l.length).map (fun i => (l.take (i + 1)).sum)

/-- `np.searchsorted(a, v)` (side `left`) on an ascending-sorted `a`:
the index of the first element `≥ v`, i.e. the number of elements `< v`.
This is numpy's documented contract; `searchsorted` is only defined for
sorted input, which holds for the cumulative-variance list it is applied
to. -/
def searchsorted (l : List α) (v : α) : ℕ :=
  l.countP (fun c => decide (c < v))

/-- Ascending value sort (`np.sort`; the default numpy sort is not
stable, so any comparison sort is a faithful model). -/
def sortedAsc (l : List α) : List α := List.insertionSort (· ≤ ·) l

/-- `np.unique`: the sorted list of distinct values. -/
def uniqueSorted (l : List ℕ) : List ℕ :=
  (List.insertionSort (· ≤ ·) l).dedup

/-- One fetched year of hourly data: the year label and the hourly
records, each a `(dayofyear, per-variable value)` row.  A `none` entry
is a missing (NaN) observation. -/
structure YearHourly (α : Type) where
  year : ℤ
  recs : List (ℕ × List (Option α))

/-- The day-of-year values present in one year
(`np.unique(ds_y['time.dayofyear'].values)` as a set). -/
def doysOf (yh : YearHourly α) : List ℕ := yh.recs.map Prod.fst

/-- The day-of-year values of the combined `time` axis after
`xr.concat(..., dim="year")` (line 67, default outer join): the merged
axis carries every fetched year's timestamps. -/
def concatDoys (data : List (YearHourly α)) : List ℕ :=
  (data.map (fun yh => yh.recs.map Prod.fst)).flatten

/-- `doys_in_year` (line 87): `np.unique` of the day-of-years of the
year slice's `time` axis.  Because the outer join gave every year slice
the same union `time` axis, this set is the union across all years and
does not depend on the year. -/
def doys_per_year (data : List (YearHourly α)) : List ℕ :=
  uniqueSorted (concatDoys data)

/-- `common_doys` (lines 83-91):
`sorted(set.intersection(*doys_per_year))`.  The per-year sets all
equal the union of the fetched day-of-years (see `doys_per_year`), so
the intersection degenerates to that union: a day-of-year present in
any single year is kept for every year.  The source computes this only
when at least one year survives; the `[]` case is never reached behind
`predict`'s fetch-failure check. -/
def commonDoys (data : List (YearHourly α)) : List ℕ :=
  match data with
  | [] => []
  | _ :: rest =>
      (doys_per_year data).filter
        (fun d => rest.all (fun _ => (doys_per_year data).contains d))

/-- Daily aggregate of variable `vi` on day `d` of one year:
`groupby('time.dayofyear').mean(dim='time')` (xarray skips NaN).  On
the union `time` axis the year slice holds NaN at every timestamp
belonging to another year, and NaNs are skipped, so the group mean is
the mean over this year's own hourly records on day `d` — and NaN
(`none`) when this year has no record on day `d`. -/
def dailyMean (yh : YearHourly α) (d : ℕ) (vi : ℕ) : Option α :=
  nanmean ((yh.recs.filter (fun r => r.1 == d)).map (fun r => r.2.getD vi none))

/-- Cross-year, cross-day `np.nanmean` of one variable of the daily
tensor, used to impute residual NaNs (lines 114-118).  When every slot
is missing numpy would yield NaN and the fill would keep NaN; the model
returns 0 in that (never exercised) corner. -/
def varMean (raw0 : List (List (List (Option α)))) (vi : ℕ) : α :=
  meanL ((raw0.flatten.map (fun day => day.getD vi none)).filterMap id)

/-- The daily tensor before imputation: every year, restricted to the
(union) common day set, with NaN at the (year, day) slots the year
never observed. -/
def prepareRaw0 (data : List (YearHourly α)) : List (List (List (Option α))) :=
  data.map (fun yh =>
    (commonDoys data).map (fun d =>
      (List.range nVars).map (fun vi => dailyMean yh d vi)))

/-- The imputed daily tensor `X_raw` (lines 105-118): NaN slots —
including whole days a year never observed, which the union day set
keeps — are filled with the variable's cross-year cross-day mean. -/
def prepareX (data : List (YearHourly α)) : List (List (List α)) :=
  (prepareRaw0 data).map (fun yr => yr.map (fun day =>
    day.mapIdx (fun vi x => x.getD (varMean (prepareRaw0 data) vi))))

/-- `prepare_daily_data`: aggregate hourly records to daily means over
the common (union) day set and impute residual NaNs.  Returns
`(X_raw, common_doys, years)`.  With exactly one fetched year,
`squeeze(drop=True)` at line 75 removes the singleton `year` dimension
and drops its coordinate, so `combined_ds['year']` at line 81 raises
`KeyError` — modelled as the error branch. -/
def prepare_daily_data (data : List (YearHourly α)) :
    Except String (List (List (List α)) × List ℕ × List ℤ) :=
  if data.length = 1 then .error "KeyError: year"
  else .ok (prepareX data, commonDoys data, data.map (·.year))

/-- `build_state_vectors`: for every year and every center day with a
full `±W` window inside the common day set, the flattened
`(2W+1) × n_vars` window (day-major).  `n_days` is read off the first
year of the rectangular daily tensor, as `X_raw.shape` does.  (For
`n_days < 2W` the source would raise from `np.zeros` on a negative
dimension; the model returns empty rows there, a corner no claim
exercises.) -/
def build_state_vectors (X_raw : List (List (List α))) (W : ℕ) :
    List (List (List α)) :=
  let n_days := (X_raw.headD []).length
  X_raw.map (fun yr =>
    (List.range (n_days - 2 * W)).map (fun j =>
      ((yr.drop j).take (2 * W + 1)).flatten))

/-- `compute_weights`: exponentially decaying year and day weights,
each normalized by its own sum, plus their outer product.
`expf` is the `np.exp` oracle. -/
def compute_weights (expf : α → α) (years : List ℤ) (target_year : ℤ)
    (doys : List ℤ) (target_doy : ℤ) (alpha_year alpha_day : α) :
    List α × List α × List (List α) :=
  let ey := years.map (fun y => expf (-(alpha_year * ((y - target_year).natAbs : α))))
  let W_year := ey.map (· / ey.sum)
  let ed := doys.map (fun d => expf (-(alpha_day * ((d - target_doy).natAbs : α))))
  let W_day := ed.map (· / ed.sum)
  (W_year, W_day, W_year.map (fun a => W_day.map (fun b => a * b)))

/-- Dot product of two rows. -/
def dotL (a b : List α) : α := (List.zipWith (· * ·) a b).sum

/-- Transpose of a matrix stored as a list of rows, with `ncols`
columns. -/
def transposeL (ncols : ℕ) (m : List (List α)) : List (List α) :=
  (List.range ncols).map (fun j => m.map (fun row => row.getD j 0))

/-- Matrix product of row-major matrices. -/
def matMulL (A B : List (List α)) : List (List α) :=
  let Bt := transposeL (B.headD []).length B
  A.map (fun row => Bt.map (fun col => dotL row col))

/-- `np.average(X, axis=0, weights=w)`: the per-column weighted mean,
`Σᵢ wᵢ xᵢⱼ / Σᵢ wᵢ`. -/
def npAverage (X : List (List α)) (w : List α) (nf : ℕ) : List α :=
  (List.range nf).map (fun j =>
    (List.zipWith (fun wi row => wi * row.getD j 0) w X).sum / w.sum)

/-- Centered sample matrix `Xc = X - mu`. -/
def Xc_of (X : List (List α)) (mu : List α) : List (List α) :=
  X.map (fun row => List.zipWith (· - ·) row mu)

/-- `Sigma = Xc.T @ (Xc * w[:, None])`: the weighted covariance before
symmetrization. -/
def covSigma (X : List (List α)) (w : List α) (mu : List α) (nf : ℕ) :
    List (List α) :=
  matMulL (transposeL nf (Xc_of X mu))
    (List.zipWith (fun wi row => row.map (wi * ·)) w (Xc_of X mu))

/-- `Sigma = 0.5 * (Sigma + Sigma.T)`. -/
def symmetrize (S : List (List α)) : List (List α) :=
  List.zipWith (List.zipWith (fun a b => (1 / 2 : α) * (a + b)))
    S (transposeL (S.headD []).length S)

/-- `1e-16`, the guard added to the total variance. -/
def eps16 : α := 1 / 10 ^ 16

/-- `1e-8`, the eigenvalue-regularization scale. -/
def eps8 : α := 1 / 10 ^ 8

/-- The normalized weight vector `w = weights / weights.sum()`. -/
def pcaNormW (weights : List α) : List α := weights.map (· / weights.sum)

/-- The weighted mean `mu` of `weighted_pca`. -/
def pcaMu (X : List (List α)) (weights : List α) : List α :=
  npAverage X (pcaNormW weights) (X.headD []).length

/-- The symmetrized weighted covariance of `weighted_pca`. -/
def pcaSigma (X : List (List α)) (weights : List α) : List (List α) :=
  symmetrize (covSigma X (pcaNormW weights) (pcaMu X weights) (X.headD []).length)

/-- `np.argsort(eigvals)[::-1]` applied jointly to eigenvalues and the
matching eigenvector columns: ascending sort of the pairs by eigenvalue
(numpy's default sort is unstable, so insertion sort is a faithful
model), then reversed. -/
def sortEig (vals : List α) (vecs : List (List α)) : List (α × List α) :=
  (List.insertionSort (fun p q => p.1 ≤ q.1) (vals.zip vecs)).reverse

/-- The descending-sorted eigenvalue/eigenvector pairs of the covariance,
`eigh` being the `np.linalg.eigh` oracle (returning the eigenvalues and
the list of eigenvector columns). -/
def pcaEig (eigh : List (List α) → List α × List (List α))
    (X : List (List α)) (weights : List α) : List (α × List α) :=
  sortEig (eigh (pcaSigma X weights)).1 (eigh (pcaSigma X weights)).2

/-- The descending-sorted eigenvalues. -/
def pcaSortedVals (eigh : List (List α) → List α × List (List α))
    (X : List (List α)) (weights : List α) : List α :=
  (pcaEig eigh X weights).map Prod.fst

/-- `cumvar = np.cumsum(eigvals / (total_var + 1e-16))`. -/
def pcaCumvar (eigh : List (List α) → List α × List (List α))
    (X : List (List α)) (weights : List α) : List α :=
  cumsum ((pcaSortedVals eigh X weights).map
    (· / ((pcaSortedVals eigh X weights).sum + eps16)))

/-- `weighted_pca`: weighted mean and covariance, eigendecomposition,
descending sort, minimal-K selection against the explained-variance
threshold, clamping, and eigenvalue flooring.  Returns
`(eigvals_k, eigvecs_k, mu, k)`.  The two error branches are the errors
`np.average` raises: a 1-D weight vector whose length differs from the
number of rows, and an (effective) weight sum of zero. -/
def weighted_pca (eigh : List (List α) → List α × List (List α))
    (X : List (List α)) (weights : List α) (var_threshold : α) :
    Except String (List α × List (List α) × List α × ℕ) :=
  let n_features := (X.headD []).length
  if weights.length ≠ X.length then
    .error "Length of weights not compatible with specified axis"
  else if (pcaNormW weights).sum = 0 then
    .error "Weights sum to zero, cannot be normalized"
  else
    let eigvals := pcaSortedVals eigh X weights
    let total_var := eigvals.sum
    let k := max 1 (min (searchsorted (pcaCumvar eigh X weights) var_threshold + 1) n_features)
    let eps_reg := if 0 < total_var then eps8 * total_var else eps8
    .ok ((eigvals.take k).map (fun v => max v eps_reg),
         ((pcaEig eigh X weights).map Prod.snd).take k,
         pcaMu X weights, k)

/-- The per-variable clip bounds of `apply_constraints`
(`clip_dict`). -/
def clip_dict : ℕ → Option α × Option α
  | 0 => (some 0, none)
  | 1 => (some (-80), some 60)
  | 2 => (some 0, some 100)
  | 3 => (some 0, some 100)
  | 4 => (some 0, none)
  | 5 => (some 0, none)
  | 6 => (some (-80), some 60)
  | _ => (none, none)

/-- Clipping of one value to the bounds of its variable
(`np.maximum` with the lower bound, then `np.minimum` with the upper
bound, each only when present). -/
def clipValue (vi : ℕ) (x : α) : α :=
  let x1 := match (clip_dict (α := α) vi).1 with
    | some lo => max x lo
    | none => x
  match (clip_dict (α := α) vi).2 with
  | some hi => min x1 hi
  | none => x1

/-- `apply_constraints`: clip every variable of a sample to its physical
bounds (the source clips column-wise across the sample matrix, which is
the same map applied to every sample row). -/
def apply_constraints (s : List α) : List α :=
  s.mapIdx (fun vi x => clipValue vi x)

/-- Projection back to state space for one sample:
`mu + pc_samples @ eigvecs_k.T`, i.e. `mu + Σⱼ zⱼ · colⱼ`. -/
def reconstruct (eigvecs_k : List (List α)) (mu : List α) (z : List α) :
    List α :=
  List.zipWith (· + ·)
    ((List.range mu.length).map (fun r =>
      (List.zipWith (fun zj col => zj * col.getD r 0) z eigvecs_k).sum))
    mu

/-- The center-day slice `[W*n_vars, (W+1)*n_vars)` of a state
vector. -/
def centerSlice (n_vars W : ℕ) (xs : List α) : List α :=
  (xs.drop (W * n_vars)).take n_vars

/-- `generate_ensemble`: scale the standard-normal draws `g` by the
per-component standard deviations `sqrt(eigvals_k)` (`sqrtf` is the
`np.sqrt` oracle; `np.random.normal(loc=0, scale=s)` is `s` times a
standard draw), project back to state space, slice out the center day
and clip to the physical bounds. -/
def generate_ensemble (sqrtf : α → α) (eigvals_k : List α)
    (eigvecs_k : List (List α)) (mu : List α) (n_vars W : ℕ)
    (g : List (List α)) : List (List α) :=
  let pc_std := eigvals_k.map sqrtf
  let pc_samples := g.map (fun gi => List.zipWith (· * ·) gi pc_std)
  pc_samples.map (fun z =>
    apply_constraints (centerSlice n_vars W (reconstruct eigvecs_k mu z)))

/-- `np.median`: middle element of the sorted values, or the mean of the
two middle elements (0 on the never-exercised empty input, where numpy
yields NaN). -/
def medianL (l : List α) : α :=
  let s := sortedAsc l
  if l.length % 2 = 1 then s.getD (l.length / 2) 0
  else (s.getD (l.length / 2 - 1) 0 + s.getD (l.length / 2) 0) / 2

/-- `np.percentile(l, p)` with the default linear-interpolation method:
the value at fractional rank `(p/100)*(n-1)` of the sorted list. -/
def percentile [FloorRing α] (l : List α) (p : α) : α :=
  let s := sortedAsc l
  let n := l.length
  if n = 0 then 0
  else
    let h : α := p / 100 * ((n - 1 : ℕ) : α)
    let i : ℕ := (⌊h⌋).toNat
    if i + 1 ≤ n - 1 then
      s.getD i 0 + (h - (i : α)) * (s.getD (i + 1) 0 - s.getD i 0)
    else s.getD i 0

/-- `np.std` (population standard deviation), `sqrtf` being the
square-root oracle. -/
def stdL (sqrtf : α → α) (l : List α) : α :=
  sqrtf (meanL (l.map (fun x => (x - meanL l) ^ 2)))

/-- `p_rain = np.mean(center_samples[:, 0] > 0.1)`: the mean of the
rain indicator over the ensemble (precipitation is variable 0). -/
def rain_prob (samples : List (List α)) : α :=
  (samples.map (fun s => if (1 : α) / 10 < s.getD 0 0 then (1 : α) else 0)).sum
    / (samples.length : α)

/-- The per-variable summary statistics of the result dictionary. -/
structure VarStats (α : Type) where
  mean : α
  median : α
  std : α
  p5 : α
  p95 : α

/-- The structured prediction result: metadata counts, the per-variable
statistics (indexed like `self.parameters`), and the rain probability
attached to the precipitation entry.  The pass-through location/date
metadata strings carry no content and are omitted. -/
structure PredictionResult (α : Type) where
  n_ensemble : ℕ
  n_components : ℕ
  stats : List (VarStats α)
  probability : α

/-- The statistics block of `predict` (lines 282-317). -/
def summarize [FloorRing α] (sqrtf : α → α) (n_components : ℕ)
    (center : List (List α)) : PredictionResult α :=
  ⟨center.length, n_components,
   (List.range nVars).map (fun vi =>
     let xs := center.map (fun s => s.getD vi 0)
     ⟨meanL xs, medianL xs, stdL sqrtf xs, percentile xs 5, percentile xs 95⟩),
   rain_prob center⟩

/-- `common_doys[days_window : -days_window]`.  Python slicing with a
negative stop means `len - W` only when `W > 0`; for `W = 0` the slice
`[0:-0]` is `[0:0]`, the empty list. -/
def valid_slice (W : ℕ) (common : List ℕ) : List ℕ :=
  if W = 0 then [] else (common.drop W).take (common.length - 2 * W)

/-- `predict` after fetching, parametrized over the oracles and over the
seed-derived standard-normal draws `g`: prepare daily data, build state
vectors, compute weights, run weighted PCA, generate the ensemble and
summarize.  Returns the ensemble together with the result (the source
returns only the result; the ensemble is the observable intermediate the
spec's determinism clause speaks about).  The failure points are the
fetch-failure `RuntimeError`, the single-year squeeze `KeyError` inside
`prepare_daily_data`, and the `np.average` errors inside
`weighted_pca`. -/
def predictCore [FloorRing α] (expf sqrtf : α → α)
    (eigh : List (List α) → List α × List (List α))
    (data : List (YearHourly α)) (target_year target_doy : ℤ) (W : ℕ)
    (var_threshold alpha_year alpha_day : α) (g : List (List α)) :
    Except String (List (List α) × PredictionResult α) :=
  if data.isEmpty then .error "Failed to fetch data"
  else
    match prepare_daily_data data with
    | .error e => .error e
    | .ok pd =>
      let X_state := build_state_vectors pd.1 W
      let valid_doys := (valid_slice W pd.2.1).map Int.ofNat
      let cw := compute_weights expf pd.2.2 target_year valid_doys target_doy
        alpha_year alpha_day
      match weighted_pca eigh X_state.flatten cw.2.2.flatten var_threshold with
      | .error e => .error e
      | .ok (eigvals_k, eigvecs_k, mu, n_components) =>
          let center := generate_ensemble sqrtf eigvals_k eigvecs_k mu nVars W g
          .ok (center, summarize sqrtf n_components center)

/-- `predict`: the caller-visible result of `predictCore`. -/
def predictW [FloorRing α] (expf sqrtf : α → α)
    (eigh : List (List α) → List α × List (List α))
    (data : List (YearHourly α)) (target_year target_doy : ℤ) (W : ℕ)
    (var_threshold alpha_year alpha_day : α) (g : List (List α)) :
    Except String (PredictionResult α) :=
  (predictCore expf sqrtf eigh data target_year target_doy W var_threshold
    alpha_year alpha_day g).map Prod.snd

/-- The mean values `classify_weather` consumes
(`predictions[...]['mean']`); `probability` is optional with default 0
(`predictions['precipitation'].get('probability', 0)`). -/
structure Predictions (α : Type) where
  temperature : α
  precipitation : α
  probability : Option α
  cloud_cover : α
  wind_speed : α
  humidity : α

/-- The primary weather determination of `classify_weather`
(weather_predictor.py lines 48-82): the ordered threshold chain
assigning the base `(classification, short_desc)` before the wind
modifier and humidity suffix.  `probability` defaults to 0
(`predictions['precipitation'].get('probability', 0)`).  The
`temp_category` local of the source is computed but never read; it is
omitted. -/
def classify_base (p : Predictions α) : String × String :=
  if 5 < p.precipitation ∧ 1 / 2 < p.probability.getD 0 then
    if p.temperature < 0 then ("snowy", "Expect snowfall")
    else if 20 < p.precipitation then ("heavy_rain", "Heavy rainfall expected")
    else ("rainy", "Rainy conditions")
  else if 1 / 2 < p.precipitation ∧ 3 / 10 < p.probability.getD 0 then
    ("light_rain", "Light rain possible")
  else if 80 < p.cloud_cover then ("overcast", "Overcast skies")
  else if 50 < p.cloud_cover then ("cloudy", "Mostly cloudy")
  else if 20 < p.cloud_cover then ("partly_cloudy", "Partly cloudy")
  else if 30 < p.temperature then ("hot", "Hot and sunny")
  else ("clear", "Clear skies")

/-- `classify_weather` (weather_predictor.py lines 5-95): the base
determination followed by the wind-speed prefix and the humidity
suffix.  String case-lowering models `str.lower()`. -/
def classify_weather (p : Predictions α) : String × String :=
  let base := classify_base p
  let wmod : String × String :=
    if 15 < p.wind_speed then ("windy_" ++ base.1, "Windy with " ++ base.2.toLower)
    else base
  if 85 < p.humidity ∧ 25 < p.temperature then (wmod.1, wmod.2 ++ " and humid")
  else if p.humidity < 30 then (wmod.1, wmod.2 ++ " and dry")
  else wmod

/-- The closed vocabulary of base classifications. -/
def baseClassifications : List String :=
  ["snowy", "heavy_rain", "rainy", "light_rain", "overcast", "cloudy",
   "partly_cloudy", "hot", "clear"]

end Model

section ConcreteInstances

/-- The exact eigendecomposition of a diagonal matrix: the eigenvalues
are the diagonal entries and the eigenvectors the standard basis
columns.  Used to instantiate the `np.linalg.eigh` oracle at the
concrete (diagonal, in fact zero) covariance matrices of the
witnesses. -/
def eighOfDiagonal (M : List (List ℚ)) : List ℚ × List (List ℚ) :=
  (M.mapIdx (fun i row => row.getD i 0),
   (List.range M.length).map (fun i =>
     (List.range M.length).map (fun j => if j = i then (1 : ℚ) else 0)))

/-- A single fetched year with one hourly record on each of the
day-of-year values 1, 2, 3: with `days_window = 1` this would align to
one single usable sample. -/
def oneYearData : List (YearHourly ℚ) :=
  [⟨2020, [(1, [some 1, some 2, some 3, some 4, some 5, some 6, some 7]),
           (2, [some 1, some 2, some 3, some 4, some 5, some 6, some 7]),
           (3, [some 1, some 2, some 3, some 4, some 5, some 6, some 7])]⟩]

/-- Two fetched years with different day-of-year sets: 2020 observed
days 1 and 2, 2021 observed days 2 and 3.  Day 1 is missing from 2021
and day 3 from 2020. -/
def twoYearData : List (YearHourly ℚ) :=
  [⟨2020, [(1, [some 1, some 2, some 3, some 4, some 5, some 6, some 7]),
           (2, [some 1, some 2, some 3, some 4, some 5, some 6, some 7])]⟩,
   ⟨2021, [(2, [some 8, some 9, some 10, some 11, some 12, some 13, some 14]),
           (3, [some 8, some 9, some 10, some 11, some 12, some 13, some 14])]⟩]

end ConcreteInstances

section MatrixModel

open Matrix

/-- The weighted covariance of `weighted_pca` in exact real matrix
arithmetic: with `wn = weights / weights.sum()` and
`mu = np.average(X, weights=wn)`, the matrix
`Sigma = Xc.T @ (diag(wn) @ Xc)` for `Xc = X - mu` (scaling rows by
`wn` is multiplication by the diagonal weight matrix).  Used for the
spectral facts about `np.linalg.eigh`'s input. -/
noncomputable def covM {m n : ℕ} (X : Matrix (Fin m) (Fin n) ℝ)
    (w : Fin m → ℝ) : Matrix (Fin n) (Fin n) ℝ :=
  let wn : Fin m → ℝ := fun i => w i / (∑ j, w j)
  let mu : Fin n → ℝ := fun j => (∑ i, wn i * X i j) / (∑ i, wn i)
  let Xc : Matrix (Fin m) (Fin n) ℝ := Matrix.of (fun i j => X i j - mu j)
  Xcᵀ * (Matrix.diagonal wn * Xc)

/-- `Sigma = 0.5 * (Sigma + Sigma.T)`, the symmetrization step. -/
noncomputable def covSymM {m n : ℕ} (X : Matrix (Fin m) (Fin n) ℝ)
    (w : Fin m → ℝ) : Matrix (Fin n) (Fin n) ℝ :=
  (1 / 2 : ℝ) • (covM X w + (covM X w)ᵀ)

/-- The pair ordering used to model `np.argsort` on
eigenvalue/eigenvector pairs is total. -/
instance fstLe_isTotal {α β : Type} [LinearOrder α] :
    IsTotal (α × β) (fun p q => p.1 ≤ q.1) :=
  ⟨fun a b => le_total a.1 b.1⟩

/-- The pair ordering used to model `np.argsort` on
eigenvalue/eigenvector pairs is transitive. -/
instance fstLe_isTrans {α β : Type} [LinearOrder α] :
    IsTrans (α × β) (fun p q => p.1 ≤ q.1) :=
  ⟨fun _ _ _ h1 h2 => le_trans h1 h2⟩

end MatrixModel

section Theorems

variable {α : Type} [LinearOrderedField α]

theorem sum_map_div (l : List α) (c : α) : (l.map (· / c)).sum = l.sum / c := by
  induction l with
  | nil => simp
  | cons x t ih => simp [ih, add_div]

theorem normW_sum (l : List α) (h : l.sum ≠ 0) : (l.map (· / l.sum)).sum = 1 := by
  rw [sum_map_div]; exact div_self h

theorem length_cumsum (l : List α) : (cumsum l).length = l.length := by
  simp [cumsum]

theorem cumsum_getD (l : List α) (i : ℕ) (hi : i < l.length) :
    (cumsum l).getD i 0 = (l.take (i + 1)).sum := by
  rw [cumsum, List.getD_eq_getElem?_getD, List.getElem?_map, List.getElem?_range hi]
  rfl

theorem sum_take_le_sum_take (l : List α) (h : ∀ x ∈ l, 0 ≤ x) (m n : ℕ)
    (hmn : m ≤ n) : (l.take m).sum ≤ (l.take n).sum := by
  have heq : l.take m = (l.take n).take m := by
    rw [List.take_take, min_eq_left hmn]
  have hsub : List.Sublist (l.take m) (l.take n) := by
    rw [heq]; exact List.take_sublist _ _
  exact List.Sublist.sum_le_sum hsub (fun a ha => h a (List.mem_of_mem_take ha))

theorem countP_sorted_lt (v : α) (l : List α) (hs : l.Pairwise (· ≤ ·)) :
    (∀ j, j < searchsorted l v → l.getD j 0 < v) ∧
    (searchsorted l v < l.length → v ≤ l.getD (searchsorted l v) 0) := by
  unfold searchsorted
  induction l with
  | nil => simp
  | cons x t ih =>
    rcases List.pairwise_cons.mp hs with ⟨hx, ht⟩
    by_cases hxv : x < v
    · rw [List.countP_cons_of_pos _ _ (by simpa using hxv)]
      refine ⟨fun j hj => ?_, fun hlt => ?_⟩
      · cases j with
        | zero => simpa using hxv
        | succ j' => exact ((ih ht).1 j' (by omega))
      · exact (ih ht).2 (by simpa using hlt)
    · have ht0 : t.countP (fun c => decide (c < v)) = 0 := by
        apply List.countP_eq_zero.mpr
        intro y hy
        simpa using not_lt.mpr (le_trans (not_lt.mp hxv) (hx y hy))
      rw [List.countP_cons_of_neg _ _ (by simpa using hxv), ht0]
      exact ⟨by omega, fun _ => by simpa using not_lt.mp hxv⟩

theorem flatten_length_uniform {β : Type} (l : List (List β)) (c : ℕ)
    (hu : ∀ r ∈ l, r.length = c) : l.flatten.length = l.length * c := by
  induction l with
  | nil => simp
  | cons r t ih =>
    have hr : r.length = c := hu r (List.mem_cons_self r t)
    simp only [List.flatten_cons, List.length_append, List.length_cons,
      ih (fun s hs => hu s (List.mem_cons_of_mem r hs)), hr]
    ring

theorem flatten_getD_uniform (l : List (List α)) (nv : ℕ)
    (hu : ∀ r ∈ l, r.length = nv) (d v : ℕ) (hd : d < l.length) (hv : v < nv) :
    l.flatten.getD (d * nv + v) 0 = (l.getD d []).getD v 0 := by
  induction l generalizing d with
  | nil => simp at hd
  | cons r t ih =>
    have hr : r.length = nv := hu r (List.mem_cons_self r t)
    cases d with
    | zero =>
      simp only [List.flatten_cons, Nat.zero_mul, Nat.zero_add]
      rw [List.getD_append _ _ _ _ (by omega), List.getD_cons_zero]
    | succ d' =>
      have hlen : r.length ≤ (d' + 1) * nv + v := by
        rw [hr]; nlinarith
      simp only [List.flatten_cons]
      rw [List.getD_append_right _ _ _ _ hlen, List.getD_cons_succ]
      have : (d' + 1) * nv + v - r.length = d' * nv + v := by rw [hr]; ring_nf; omega
      rw [this]
      exact ih (fun s hs => hu s (List.mem_cons_of_mem r hs)) d' (by simpa using hd)

end Theorems

section ClaimsA

variable {α : Type} [LinearOrderedField α]

theorem getD_map_lt {β γ : Type} (f : β → γ) (l : List β) (i : ℕ)
    (hi : i < l.length) (dg : γ) (db : β) :
    (l.map f).getD i dg = f (l.getD i db) := by
  rw [List.getD_eq_getElem?_getD, List.getElem?_map, List.getElem?_eq_getElem hi,
    List.getD_eq_getElem?_getD, List.getElem?_eq_getElem hi]
  rfl

theorem getD_range_map_lt {γ : Type} (f : ℕ → γ) (n i : ℕ) (hi : i < n) (dg : γ) :
    ((List.range n).map f).getD i dg = f i := by
  rw [getD_map_lt f (List.range n) i (by simpa using hi) dg 0, List.getD_eq_getElem?_getD,
    List.getElem?_range hi]
  rfl

/-- C3 (code bug): the code aims to restrict every year to the
intersection of the per-year day-of-year sets (the inline comment at
line 83 and the explicit `set.intersection` at line 90), but after the
outer-join `xr.concat` of line 67 every per-year set is the union, so a
day-of-year missing from one year is KEPT for all years and its missing
slots are NaN-imputed (lines 114-118) instead of being excluded.  At
the concrete two-year history where 2020 observed days {1,2} and 2021
observed days {2,3}: the common day set is the union `[1,2,3]`, day 1
is absent from 2021 and day 3 from 2020, yet `prepare_daily_data`
returns a rectangular `2 × 3 × 7` tensor covering both. -/
theorem commonDoys_union_code_bug :
    commonDoys twoYearData = [1, 2, 3] ∧
    1 ∉ doysOf (twoYearData.getD 1 ⟨0, []⟩) ∧
    3 ∉ doysOf (twoYearData.getD 0 ⟨0, []⟩) ∧
    ∃ pd, prepare_daily_data twoYearData = Except.ok pd ∧
      pd.2.1 = [1, 2, 3] ∧ pd.1.length = 2 ∧
      (∀ row ∈ pd.1, row.length = 3) ∧
      (∀ row ∈ pd.1, ∀ cell ∈ row, cell.length = nVars) := by
  refine ⟨by decide, by decide, by decide, _, rfl, by decide, by decide, ?_, ?_⟩
  · decide
  · decide

/-- C4: `build_state_vectors` on a rectangular `[ny, nd, nv]` daily
tensor with `nd ≥ 2W+1` returns a `[ny, nd-2W, (2W+1)*nv]` tensor whose
`(y, j)` entry concatenates the `2W+1` consecutive daily vectors
`X_raw[y][j], …, X_raw[y][j+2W]` in day order then variable order;
boundary days get no state vector. -/
theorem build_state_vectors_spec (X_raw : List (List (List α))) (W nd nv : ℕ)
    (hne : X_raw ≠ [])
    (hrow : ∀ r ∈ X_raw, r.length = nd)
    (hcell : ∀ r ∈ X_raw, ∀ c ∈ r, c.length = nv)
    (hnd : 2 * W + 1 ≤ nd) :
    (build_state_vectors X_raw W).length = X_raw.length ∧
    (∀ row ∈ build_state_vectors X_raw W, row.length = nd - 2 * W) ∧
    (∀ row ∈ build_state_vectors X_raw W, ∀ sv ∈ row,
      sv.length = (2 * W + 1) * nv) ∧
    (∀ y j d v, y < X_raw.length → j < nd - 2 * W → d ≤ 2 * W → v < nv →
      (((build_state_vectors X_raw W).getD y []).getD j []).getD (d * nv + v) 0
        = ((X_raw.getD y []).getD (j + d) []).getD v 0) := by
  have hhead : (X_raw.headD []).length = nd := by
    cases X_raw with
    | nil => exact absurd rfl hne
    | cons r t => exact hrow r (List.mem_cons_self r t)
  refine ⟨by simp [build_state_vectors], ?_, ?_, ?_⟩
  · intro row hrowm
    simp only [build_state_vectors, List.mem_map] at hrowm
    obtain ⟨yr, _, rfl⟩ := hrowm
    rw [List.length_map, List.length_range, hhead]
  · intro row hrowm sv hsv
    simp only [build_state_vectors, List.mem_map] at hrowm
    obtain ⟨yr, hyr, rfl⟩ := hrowm
    simp only [List.mem_map, List.mem_range] at hsv
    obtain ⟨j, hj, rfl⟩ := hsv
    rw [hhead] at hj
    have hwin : ∀ c ∈ (yr.drop j).take (2 * W + 1), c.length = nv := fun c hc =>
      hcell yr hyr c (List.mem_of_mem_drop (List.mem_of_mem_take hc))
    rw [flatten_length_uniform _ nv hwin, List.length_take, List.length_drop,
      hrow yr hyr]
    have : 2 * W + 1 ≤ nd - j := by omega
    rw [min_eq_left this]
  · intro y j d v hy hj hd hv
    have hyr : (build_state_vectors X_raw W).getD y [] =
        (List.range ((X_raw.headD []).length - 2 * W)).map (fun i =>
          (((X_raw.getD y []).drop i).take (2 * W + 1)).flatten) := by
      rw [build_state_vectors]
      exact getD_map_lt _ X_raw y hy [] []
    rw [hyr, hhead, getD_range_map_lt _ _ j hj []]
    have hyrm : X_raw.getD y [] ∈ X_raw := by
      rw [List.getD_eq_getElem?_getD, List.getElem?_eq_getElem hy]
      exact List.getElem_mem hy
    have hlenyr : (X_raw.getD y []).length = nd := hrow _ hyrm
    have hwin : ∀ c ∈ ((X_raw.getD y []).drop j).take (2 * W + 1), c.length = nv :=
      fun c hc => hcell _ hyrm c (List.mem_of_mem_drop (List.mem_of_mem_take hc))
    have hdlt : d < (((X_raw.getD y []).drop j).take (2 * W + 1)).length := by
      rw [List.length_take, List.length_drop, hlenyr]
      omega
    rw [flatten_getD_uniform _ nv hwin d v hdlt hv]
    have hdt : d < 2 * W + 1 := by omega
    have hstep : (((X_raw.getD y []).drop j).take (2 * W + 1)).getD d []
        = (X_raw.getD y []).getD (j + d) [] := by
      rw [List.getD_eq_getElem?_getD, List.getD_eq_getElem?_getD,
        List.getElem?_take, if_pos hdt, List.getElem?_drop,
        List.getD_eq_getElem?_getD]
    rw [hstep]

/-- Witness for C4 at a concrete `1 × 3 × 2` tensor with `W = 1`. -/
theorem build_state_vectors_spec_witness :
    (([[[ (1:ℚ), 2], [3, 4], [5, 6]]] : List (List (List ℚ))) ≠ [] ∧
      (∀ r ∈ ([[[ (1:ℚ), 2], [3, 4], [5, 6]]] : List (List (List ℚ))), r.length = 3) ∧
      (∀ r ∈ ([[[ (1:ℚ), 2], [3, 4], [5, 6]]] : List (List (List ℚ))),
        ∀ c ∈ r, c.length = 2) ∧
      2 * 1 + 1 ≤ 3) ∧
    (∀ y j d v, y < ([[[ (1:ℚ), 2], [3, 4], [5, 6]]] : List (List (List ℚ))).length →
      j < 3 - 2 * 1 → d ≤ 2 * 1 → v < 2 →
      (((build_state_vectors [[[ (1:ℚ), 2], [3, 4], [5, 6]]] 1).getD y []).getD j []).getD
          (d * 2 + v) 0
        = ((([[[ (1:ℚ), 2], [3, 4], [5, 6]]] : List (List (List ℚ))).getD y []).getD
            (j + d) []).getD v 0) :=
  ⟨⟨by simp, by simp, by simp, by norm_num⟩,
   (build_state_vectors_spec [[[ (1:ℚ), 2], [3, 4], [5, 6]]] 1 3 2 (by simp)
      (by simp) (by simp) (by norm_num)).2.2.2⟩

end ClaimsA

section ClaimsB

variable {α : Type} [LinearOrderedField α]

theorem sum_map_mul_const (x : α) (b : List α) :
    (b.map (fun y => x * y)).sum = x * b.sum := by
  induction b with
  | nil => simp
  | cons z t ih => simp [ih]; ring

theorem outer_flatten_sum (a b : List α) :
    ((a.map (fun x => b.map (fun y => x * y))).flatten).sum = a.sum * b.sum := by
  induction a with
  | nil => simp
  | cons x t ih =>
    simp only [List.map_cons, List.flatten_cons, List.sum_append, ih,
      sum_map_mul_const, List.sum_cons]
    ring

/-- C6: for nonempty year and day lists, `compute_weights` (with the
real exponential) returns everywhere-positive year and day weight
vectors that each sum to 1, and an outer-product combined weight matrix
that is nonnegative and sums to 1. -/
theorem compute_weights_normalized (years : List ℤ) (ty : ℤ) (doys : List ℤ)
    (td : ℤ) (ay ad : ℝ) (hy : years ≠ []) (hd : doys ≠ []) :
    (∀ x ∈ (compute_weights Real.exp years ty doys td ay ad).1, 0 < x) ∧
    (compute_weights Real.exp years ty doys td ay ad).1.sum = 1 ∧
    (∀ x ∈ (compute_weights Real.exp years ty doys td ay ad).2.1, 0 < x) ∧
    (compute_weights Real.exp years ty doys td ay ad).2.1.sum = 1 ∧
    (∀ row ∈ (compute_weights Real.exp years ty doys td ay ad).2.2,
      ∀ x ∈ row, 0 ≤ x) ∧
    ((compute_weights Real.exp years ty doys td ay ad).2.2.flatten).sum = 1 := by
  have hey : ∀ x ∈ years.map (fun y =>
      Real.exp (-(ay * (((y - ty).natAbs : ℕ) : ℝ)))), 0 < x := by
    intro x hx
    obtain ⟨y, _, rfl⟩ := List.mem_map.mp hx
    exact Real.exp_pos _
  have hed : ∀ x ∈ doys.map (fun d =>
      Real.exp (-(ad * (((d - td).natAbs : ℕ) : ℝ)))), 0 < x := by
    intro x hx
    obtain ⟨d, _, rfl⟩ := List.mem_map.mp hx
    exact Real.exp_pos _
  have heyne : years.map (fun y =>
      Real.exp (-(ay * (((y - ty).natAbs : ℕ) : ℝ)))) ≠ [] := by
    simpa using hy
  have hedne : doys.map (fun d =>
      Real.exp (-(ad * (((d - td).natAbs : ℕ) : ℝ)))) ≠ [] := by
    simpa using hd
  have heys : 0 < (years.map (fun y =>
      Real.exp (-(ay * (((y - ty).natAbs : ℕ) : ℝ))))).sum :=
    List.sum_pos _ hey heyne
  have heds : 0 < (doys.map (fun d =>
      Real.exp (-(ad * (((d - td).natAbs : ℕ) : ℝ))))).sum :=
    List.sum_pos _ hed hedne
  have hWy : ∀ x ∈ (compute_weights Real.exp years ty doys td ay ad).1, 0 < x := by
    intro x hx
    simp only [compute_weights, List.mem_map] at hx
    obtain ⟨e, he, rfl⟩ := hx
    obtain ⟨yv, hyv, rfl⟩ := he
    exact div_pos (Real.exp_pos _) heys
  have hWd : ∀ x ∈ (compute_weights Real.exp years ty doys td ay ad).2.1, 0 < x := by
    intro x hx
    simp only [compute_weights, List.mem_map] at hx
    obtain ⟨e, he, rfl⟩ := hx
    obtain ⟨dv, hdv, rfl⟩ := he
    exact div_pos (Real.exp_pos _) heds
  have hWys : (compute_weights Real.exp years ty doys td ay ad).1.sum = 1 := by
    simp only [compute_weights]
    exact normW_sum _ (ne_of_gt heys)
  have hWds : (compute_weights Real.exp years ty doys td ay ad).2.1.sum = 1 := by
    simp only [compute_weights]
    exact normW_sum _ (ne_of_gt heds)
  refine ⟨hWy, hWys, hWd, hWds, ?_, ?_⟩
  · intro row hrow x hx
    simp only [compute_weights, List.mem_map] at hrow
    obtain ⟨a, ha, rfl⟩ := hrow
    obtain ⟨b, hb, rfl⟩ := List.mem_map.mp hx
    have ha2 : 0 < a := hWy a (by simpa [compute_weights] using ha)
    have hb2 : 0 < b := hWd b (by simpa [compute_weights] using hb)
    positivity
  · show ((((compute_weights Real.exp years ty doys td ay ad).1).map (fun a =>
      ((compute_weights Real.exp years ty doys td ay ad).2.1).map
        (fun b => a * b))).flatten).sum = 1
    rw [outer_flatten_sum, hWys, hWds, one_mul]

/-- Witness for C6 at concrete nonempty year and day lists. -/
theorem compute_weights_normalized_witness :
    (([(2020 : ℤ)] : List ℤ) ≠ [] ∧ ([(5 : ℤ)] : List ℤ) ≠ []) ∧
    ((compute_weights Real.exp [(2020 : ℤ)] 2021 [(5 : ℤ)] 100
        ((1:ℝ)/2) ((2:ℝ)/10)).1.sum = 1 ∧
     ((compute_weights Real.exp [(2020 : ℤ)] 2021 [(5 : ℤ)] 100
        ((1:ℝ)/2) ((2:ℝ)/10)).2.2.flatten).sum = 1) :=
  ⟨⟨by simp, by simp⟩,
   ⟨(compute_weights_normalized [(2020 : ℤ)] 2021 [(5 : ℤ)] 100
      ((1:ℝ)/2) ((2:ℝ)/10) (by simp) (by simp)).2.1,
    (compute_weights_normalized [(2020 : ℤ)] 2021 [(5 : ℤ)] 100
      ((1:ℝ)/2) ((2:ℝ)/10) (by simp) (by simp)).2.2.2.2.2⟩⟩

theorem indicator_sum_eq_countP (samples : List (List α)) :
    (samples.map (fun s => if (1 : α) / 10 < s.getD 0 0 then (1 : α) else 0)).sum
      = ((samples.countP (fun s => decide ((1 : α) / 10 < s.getD 0 0)) : ℕ) : α) := by
  induction samples with
  | nil => simp
  | cons s t ih =>
    by_cases h : (1 : α) / 10 < s.getD 0 0
    · rw [List.map_cons, List.sum_cons, if_pos h, ih,
        List.countP_cons_of_pos _ _ (by simpa using h)]
      push_cast
      ring
    · rw [List.map_cons, List.sum_cons, if_neg h, ih,
        List.countP_cons_of_neg _ _ (by simpa using h)]
      ring

/-- C8: the rain probability is exactly the fraction of ensemble
samples whose precipitation (variable 0) exceeds 0.1 mm, and it lies in
`[0, 1]`; it is the `probability` field the statistics summarizer
reports. -/
theorem rain_prob_fraction [FloorRing α] (samples : List (List α))
    (hne : samples ≠ []) :
    rain_prob samples
      = ((samples.countP (fun s => decide ((1 : α) / 10 < s.getD 0 0)) : ℕ) : α)
          / (samples.length : α) ∧
    0 ≤ rain_prob samples ∧ rain_prob samples ≤ 1 ∧
    (∀ (sqrtf : α → α) (nc : ℕ),
      (summarize sqrtf nc samples).probability = rain_prob samples) := by
  have hfrac : rain_prob samples
      = ((samples.countP (fun s => decide ((1 : α) / 10 < s.getD 0 0)) : ℕ) : α)
          / (samples.length : α) := by
    rw [rain_prob, indicator_sum_eq_countP]
  have hlen : (0 : α) < (samples.length : α) := by
    have : 0 < samples.length := List.length_pos.mpr hne
    exact_mod_cast this
  refine ⟨hfrac, ?_, ?_, fun _ _ => rfl⟩
  · rw [hfrac]
    positivity
  · rw [hfrac]
    rw [div_le_one hlen]
    exact_mod_cast List.countP_le_length _

/-- Witness for C8 at a concrete two-sample ensemble. -/
theorem rain_prob_fraction_witness :
    ([[(1 : ℚ)], [0]] : List (List ℚ)) ≠ [] ∧
    (0 ≤ rain_prob ([[(1 : ℚ)], [0]] : List (List ℚ)) ∧
      rain_prob ([[(1 : ℚ)], [0]] : List (List ℚ)) ≤ 1) :=
  ⟨by simp,
   ⟨(rain_prob_fraction ([[(1 : ℚ)], [0]] : List (List ℚ)) (by simp)).2.1,
    (rain_prob_fraction ([[(1 : ℚ)], [0]] : List (List ℚ)) (by simp)).2.2.1⟩⟩

theorem classify_base_mem (p : Predictions α) :
    (classify_base p).1 ∈ baseClassifications := by
  unfold classify_base
  split_ifs <;> decide

/-- C10: `classify_weather` is total on its six mean inputs (with the
optional probability defaulting to 0) and always returns a nonempty
classification that is one of the nine base labels, prefixed with
`windy_` exactly when the wind-speed mean exceeds 15. -/
theorem classify_weather_closed_vocabulary (p : Predictions α) :
    (classify_weather p).1 ≠ "" ∧
    ∃ b ∈ baseClassifications,
      (classify_weather p).1 = if 15 < p.wind_speed then "windy_" ++ b else b := by
  have hmem := classify_base_mem p
  have hb : (classify_weather p).1
      = if 15 < p.wind_speed then "windy_" ++ (classify_base p).1
        else (classify_base p).1 := by
    unfold classify_weather
    dsimp only
    split_ifs <;> rfl
  refine ⟨?_, ⟨(classify_base p).1, hmem, hb⟩⟩
  rw [hb]
  generalize hgen : (classify_base p).1 = b at hmem ⊢
  by_cases hw : 15 < p.wind_speed
  · rw [if_pos hw]
    fin_cases hmem <;> decide
  · rw [if_neg hw]
    fin_cases hmem <;> decide

end ClaimsB

section ClaimsC

variable {α : Type} [LinearOrderedField α]

theorem apply_constraints_length (t : List α) :
    (apply_constraints t).length = t.length := by
  simp [apply_constraints]

theorem apply_constraints_getD (t : List α) (vi : ℕ) (h : vi < t.length) :
    (apply_constraints t).getD vi 0 = clipValue vi (t.getD vi 0) := by
  have h2 : vi < (apply_constraints t).length := by
    simpa [apply_constraints_length] using h
  rw [List.getD_eq_getElem?_getD, List.getElem?_eq_getElem h2,
    List.getD_eq_getElem?_getD, List.getElem?_eq_getElem h]
  simp [apply_constraints]

theorem reconstruct_length (vk : List (List α)) (mu z : List α) :
    (reconstruct vk mu z).length = mu.length := by
  simp [reconstruct]

theorem centerSlice_length {β : Type} (n W : ℕ) (xs : List β) (h : (W + 1) * n ≤ xs.length) :
    (centerSlice n W xs).length = n := by
  rw [centerSlice, List.length_take, List.length_drop]
  have h2 : W * n + n ≤ xs.length := by
    rw [add_mul, one_mul] at h
    omega
  omega

/-- C5: every ensemble sample of `generate_ensemble` (with the full
7-variable layout) satisfies the documented physical bounds; each
sample is exactly the clipped center-day slice `[W*n_vars, (W+1)*n_vars)`
of the reconstruction `mu + V_k z` from the scaled draws; and the clip
is the identity on values already inside their variable's bounds. -/
theorem generate_ensemble_bounds (sqrtf : α → α) (ek : List α)
    (vk : List (List α)) (mu : List α) (W : ℕ) (g : List (List α))
    (hmu : (W + 1) * nVars ≤ mu.length) :
    (∀ s ∈ generate_ensemble sqrtf ek vk mu nVars W g,
      s.length = nVars ∧
      0 ≤ s.getD 0 0 ∧
      (-80 ≤ s.getD 1 0 ∧ s.getD 1 0 ≤ 60) ∧
      (0 ≤ s.getD 2 0 ∧ s.getD 2 0 ≤ 100) ∧
      (0 ≤ s.getD 3 0 ∧ s.getD 3 0 ≤ 100) ∧
      0 ≤ s.getD 4 0 ∧
      0 ≤ s.getD 5 0 ∧
      (-80 ≤ s.getD 6 0 ∧ s.getD 6 0 ≤ 60)) ∧
    (∀ i : ℕ, (generate_ensemble sqrtf ek vk mu nVars W g)[i]?
      = (g[i]?).map (fun gi => apply_constraints (centerSlice nVars W
          (reconstruct vk mu (List.zipWith (· * ·) gi (ek.map sqrtf)))))) ∧
    (∀ (vi : ℕ) (x : α),
      (∀ lo, (clip_dict (α := α) vi).1 = some lo → lo ≤ x) →
      (∀ hi, (clip_dict (α := α) vi).2 = some hi → x ≤ hi) →
      clipValue vi x = x) ∧
    (∀ (t : List α) (vi : ℕ), vi < t.length →
      (apply_constraints t).getD vi 0 = clipValue vi (t.getD vi 0)) := by
  refine ⟨?_, ?_, ?_, fun t vi h => apply_constraints_getD t vi h⟩
  · intro s hs
    simp only [generate_ensemble, List.mem_map] at hs
    obtain ⟨z, hz, rfl⟩ := hs
    obtain ⟨gi, hgi, rfl⟩ := hz
    set t := centerSlice nVars W
      (reconstruct vk mu (List.zipWith (· * ·) gi (ek.map sqrtf))) with ht
    have htlen : t.length = nVars := by
      rw [ht, centerSlice_length]
      rw [reconstruct_length]
      exact hmu
    have hget : ∀ vi : ℕ, vi < nVars →
        (apply_constraints t).getD vi 0 = clipValue vi (t.getD vi 0) :=
      fun vi hvi => apply_constraints_getD t vi (by omega)
    have h7 : (7 : ℕ) = nVars := rfl
    refine ⟨by simpa [apply_constraints_length] using htlen, ?_, ⟨?_, ?_⟩,
      ⟨?_, ?_⟩, ⟨?_, ?_⟩, ?_, ?_, ⟨?_, ?_⟩⟩
    · rw [hget 0 (by norm_num [nVars])]
      simp only [clipValue, clip_dict]
      exact le_max_right _ _
    · rw [hget 1 (by norm_num [nVars])]
      simp only [clipValue, clip_dict]
      exact le_min (le_max_right _ _) (by norm_num)
    · rw [hget 1 (by norm_num [nVars])]
      simp only [clipValue, clip_dict]
      exact min_le_right _ _
    · rw [hget 2 (by norm_num [nVars])]
      simp only [clipValue, clip_dict]
      exact le_min (le_max_right _ _) (by norm_num)
    · rw [hget 2 (by norm_num [nVars])]
      simp only [clipValue, clip_dict]
      exact min_le_right _ _
    · rw [hget 3 (by norm_num [nVars])]
      simp only [clipValue, clip_dict]
      exact le_min (le_max_right _ _) (by norm_num)
    · rw [hget 3 (by norm_num [nVars])]
      simp only [clipValue, clip_dict]
      exact min_le_right _ _
    · rw [hget 4 (by norm_num [nVars])]
      simp only [clipValue, clip_dict]
      exact le_max_right _ _
    · rw [hget 5 (by norm_num [nVars])]
      simp only [clipValue, clip_dict]
      exact le_max_right _ _
    · rw [hget 6 (by norm_num [nVars])]
      simp only [clipValue, clip_dict]
      exact le_min (le_max_right _ _) (by norm_num)
    · rw [hget 6 (by norm_num [nVars])]
      simp only [clipValue, clip_dict]
      exact min_le_right _ _
  · intro i
    simp [generate_ensemble, List.getElem?_map, Option.map_map]
    rfl
  · intro vi x hlo hhi
    rcases h1 : (clip_dict (α := α) vi).1 with _ | lo <;>
      rcases h2 : (clip_dict (α := α) vi).2 with _ | hi <;>
      simp only [clipValue, h1, h2]
    · rw [min_eq_left (hhi hi h2)]
    · rw [max_eq_left (hlo lo h1)]
    · rw [max_eq_left (hlo lo h1), min_eq_left (hhi hi h2)]

/-- Witness for C5: one draw, empty eigenbasis, `W = 0`, a 7-long mean
vector. -/
theorem generate_ensemble_bounds_witness :
    ((0 + 1) * nVars ≤ ([(1 : ℚ), 2, 3, 4, 5, 6, 7] : List ℚ).length) ∧
    (∀ s ∈ generate_ensemble (fun x => x) [] [] [(1 : ℚ), 2, 3, 4, 5, 6, 7]
        nVars 0 [[]],
      s.length = nVars ∧
      0 ≤ s.getD 0 0 ∧
      (-80 ≤ s.getD 1 0 ∧ s.getD 1 0 ≤ 60) ∧
      (0 ≤ s.getD 2 0 ∧ s.getD 2 0 ≤ 100) ∧
      (0 ≤ s.getD 3 0 ∧ s.getD 3 0 ≤ 100) ∧
      0 ≤ s.getD 4 0 ∧
      0 ≤ s.getD 5 0 ∧
      (-80 ≤ s.getD 6 0 ∧ s.getD 6 0 ≤ 60)) :=
  ⟨by norm_num [nVars],
   (generate_ensemble_bounds (fun x => x) [] [] [(1 : ℚ), 2, 3, 4, 5, 6, 7] 0 [[]]
      (by norm_num [nVars])).1⟩

end ClaimsC

section ClaimsD

open Matrix

theorem covM_transpose {m n : ℕ} (X : Matrix (Fin m) (Fin n) ℝ)
    (w : Fin m → ℝ) : (covM X w)ᵀ = covM X w := by
  unfold covM
  rw [Matrix.transpose_mul, Matrix.transpose_mul, Matrix.transpose_transpose,
    Matrix.diagonal_transpose, Matrix.mul_assoc]

theorem covSymM_eq_covM {m n : ℕ} (X : Matrix (Fin m) (Fin n) ℝ)
    (w : Fin m → ℝ) : covSymM X w = covM X w := by
  unfold covSymM
  rw [covM_transpose, ← two_smul ℝ (covM X w), smul_smul]
  norm_num

theorem transpose_mul_diagonal_mul_posSemidef {m n : ℕ}
    (B : Matrix (Fin m) (Fin n) ℝ) (d : Fin m → ℝ) (hd : ∀ i, 0 ≤ d i) :
    (Bᵀ * (Matrix.diagonal d * B)).PosSemidef := by
  have hdp : (Matrix.diagonal d).PosSemidef :=
    Matrix.PosSemidef.diagonal (by intro i; simpa using hd i)
  have h := hdp.conjTranspose_mul_mul_same B
  rw [← Matrix.conjTranspose_eq_transpose_of_trivial, ← Matrix.mul_assoc]
  exact h

theorem covM_posSemidef {m n : ℕ} (X : Matrix (Fin m) (Fin n) ℝ)
    (w : Fin m → ℝ) (hw : ∀ i, 0 ≤ w i) : (covM X w).PosSemidef := by
  have hwn : ∀ i : Fin m, 0 ≤ w i / (∑ j, w j) := fun i =>
    div_nonneg (hw i) (Finset.sum_nonneg fun j _ => hw j)
  unfold covM
  dsimp only
  exact transpose_mul_diagonal_mul_posSemidef _ _ hwn

theorem covSymM_posSemidef {m n : ℕ} (X : Matrix (Fin m) (Fin n) ℝ)
    (w : Fin m → ℝ) (hw : ∀ i, 0 ≤ w i) : (covSymM X w).PosSemidef := by
  rw [covSymM_eq_covM]
  exact covM_posSemidef X w hw

theorem covSymM_isHermitian {m n : ℕ} (X : Matrix (Fin m) (Fin n) ℝ)
    (w : Fin m → ℝ) : (covSymM X w).IsHermitian := by
  show (covSymM X w)ᴴ = covSymM X w
  rw [Matrix.conjTranspose_eq_transpose_of_trivial, covSymM_eq_covM, covM_transpose]

theorem sortEig_fst_sorted {α : Type} [LinearOrderedField α] (vals : List α)
    (vecs : List (List α)) :
    ((sortEig vals vecs).map Prod.fst).Sorted (· ≥ ·) := by
  unfold sortEig
  rw [List.map_reverse]
  rw [List.Sorted, List.pairwise_reverse]
  have h := List.sorted_insertionSort (fun p q : α × List α => p.1 ≤ q.1)
    (vals.zip vecs)
  exact h.map Prod.fst (fun a b hab => hab)

theorem mem_sortEig_fst {α : Type} [LinearOrderedField α] {vals : List α}
    {vecs : List (List α)} {x : α}
    (h : x ∈ (sortEig vals vecs).map Prod.fst) : x ∈ vals := by
  obtain ⟨p, hp, rfl⟩ := List.mem_map.mp h
  obtain ⟨a, b⟩ := p
  unfold sortEig at hp
  rw [List.mem_reverse] at hp
  have hp2 : (a, b) ∈ vals.zip vecs :=
    (List.perm_insertionSort _ _).mem_iff.mp hp
  exact (List.of_mem_zip hp2).1

theorem cumsum_sorted_of_nonneg {α : Type} [LinearOrderedField α]
    (l : List α) (h : ∀ x ∈ l, 0 ≤ x) : (cumsum l).Sorted (· ≤ ·) := by
  rw [List.Sorted]
  apply List.pairwise_iff_getElem.mpr
  intro i j hi hj hij
  have hi2 : i < l.length := by simpa [length_cumsum] using hi
  have hj2 : j < l.length := by simpa [length_cumsum] using hj
  rw [← List.getD_eq_getElem (cumsum l) 0 hi, ← List.getD_eq_getElem (cumsum l) 0 hj,
    cumsum_getD l i hi2, cumsum_getD l j hj2]
  exact sum_take_le_sum_take l h (i + 1) (j + 1) (by omega)

/-- C7: for every sample matrix and nonnegative weight vector the
symmetrized weighted covariance is positive semidefinite, so its
eigenvalues are nonnegative (exact arithmetic); descending sorting
makes the eigenvalue list non-increasing; and the cumulative
explained-variance list `cumsum(vals / (vals.sum + 1e-16))` built from
those sorted eigenvalues is non-decreasing. -/
theorem weighted_pca_spectrum {m n : ℕ} (X : Matrix (Fin m) (Fin n) ℝ)
    (w : Fin m → ℝ) (hw : ∀ i, 0 ≤ w i) :
    (∀ i, 0 ≤ (covSymM_isHermitian X w).eigenvalues i) ∧
    (∀ vecs : List (List ℝ),
      ((sortEig (List.ofFn (covSymM_isHermitian X w).eigenvalues) vecs).map
        Prod.fst).Sorted (· ≥ ·)) ∧
    (∀ vecs : List (List ℝ),
      (cumsum (((sortEig (List.ofFn (covSymM_isHermitian X w).eigenvalues)
          vecs).map Prod.fst).map
        (· / ((((sortEig (List.ofFn (covSymM_isHermitian X w).eigenvalues)
          vecs).map Prod.fst)).sum + eps16)))).Sorted (· ≤ ·)) := by
  have hnn : ∀ i, 0 ≤ (covSymM_isHermitian X w).eigenvalues i := fun i =>
    (covSymM_posSemidef X w hw).eigenvalues_nonneg i
  refine ⟨hnn, fun vecs => sortEig_fst_sorted _ vecs, fun vecs => ?_⟩
  apply cumsum_sorted_of_nonneg
  intro x hx
  obtain ⟨v, hv, rfl⟩ := List.mem_map.mp hx
  have hvm : v ∈ List.ofFn (covSymM_isHermitian X w).eigenvalues :=
    mem_sortEig_fst hv
  obtain ⟨i, rfl⟩ := (List.mem_ofFn _ _).mp hvm
  have hsum : 0 ≤ ((sortEig (List.ofFn (covSymM_isHermitian X w).eigenvalues)
      vecs).map Prod.fst).sum := by
    apply List.sum_nonneg
    intro y hy
    obtain ⟨j, rfl⟩ := (List.mem_ofFn _ _).mp (mem_sortEig_fst hy)
    exact hnn j
  have heps : (0 : ℝ) < eps16 := by norm_num [eps16]
  exact div_nonneg (hnn i) (by positivity)

/-- Witness for C7 at a concrete `1 × 1` sample matrix and unit
weight. -/
theorem weighted_pca_spectrum_witness :
    (∀ i : Fin 1, 0 ≤ (![(1 : ℝ)]) i) ∧
    (∀ i, 0 ≤ (covSymM_isHermitian (Matrix.of ![![(5 : ℝ)]])
      ![(1 : ℝ)]).eigenvalues i) :=
  ⟨fun i => by fin_cases i; norm_num,
   (weighted_pca_spectrum (Matrix.of ![![(5 : ℝ)]]) ![(1 : ℝ)]
      (fun i => by fin_cases i; norm_num)).1⟩

end ClaimsD

section ClaimsE

variable {α : Type} [LinearOrderedField α]

theorem pcaNormW_sum_one (weights : List α) (hsum : weights.sum ≠ 0) :
    (pcaNormW weights).sum = 1 := by
  rw [pcaNormW]
  exact normW_sum weights hsum

theorem weighted_pca_isOk (eigh : List (List α) → List α × List (List α))
    (X : List (List α)) (weights : List α) (thr : α)
    (hlen : weights.length = X.length) (hsum : weights.sum ≠ 0) :
    weighted_pca eigh X weights thr = Except.ok
      (((pcaSortedVals eigh X weights).take
          (max 1 (min (searchsorted (pcaCumvar eigh X weights) thr + 1)
            (X.headD []).length))).map
        (fun v => max v (if 0 < (pcaSortedVals eigh X weights).sum
          then eps8 * (pcaSortedVals eigh X weights).sum else eps8)),
       ((pcaEig eigh X weights).map Prod.snd).take
          (max 1 (min (searchsorted (pcaCumvar eigh X weights) thr + 1)
            (X.headD []).length)),
       pcaMu X weights,
       max 1 (min (searchsorted (pcaCumvar eigh X weights) thr + 1)
         (X.headD []).length)) := by
  rw [weighted_pca, if_neg (by simpa using hlen),
    if_neg (by rw [pcaNormW_sum_one weights hsum]; norm_num)]

theorem pcaEig_length (eigh : List (List α) → List α × List (List α))
    (X : List (List α)) (weights : List α)
    (hcnt : ((eigh (pcaSigma X weights)).1).length = (X.headD []).length)
    (hvcnt : ((eigh (pcaSigma X weights)).2).length = (X.headD []).length) :
    (pcaEig eigh X weights).length = (X.headD []).length := by
  rw [pcaEig, sortEig, List.length_reverse, List.length_insertionSort,
    List.length_zip, hcnt, hvcnt, min_self]

theorem pcaCumvar_length (eigh : List (List α) → List α × List (List α))
    (X : List (List α)) (weights : List α)
    (hcnt : ((eigh (pcaSigma X weights)).1).length = (X.headD []).length)
    (hvcnt : ((eigh (pcaSigma X weights)).2).length = (X.headD []).length) :
    (pcaCumvar eigh X weights).length = (X.headD []).length := by
  rw [pcaCumvar, length_cumsum, List.length_map, pcaSortedVals, List.length_map,
    pcaEig_length eigh X weights hcnt hvcnt]

theorem pcaCumvar_pairwise (eigh : List (List α) → List α × List (List α))
    (X : List (List α)) (weights : List α)
    (hnn : ∀ v ∈ (eigh (pcaSigma X weights)).1, 0 ≤ v) :
    (pcaCumvar eigh X weights).Pairwise (· ≤ ·) := by
  rw [pcaCumvar]
  have h := cumsum_sorted_of_nonneg ((pcaSortedVals eigh X weights).map
    (· / ((pcaSortedVals eigh X weights).sum + eps16))) ?_
  · exact h
  · intro x hx
    obtain ⟨v, hv, rfl⟩ := List.mem_map.mp hx
    have hv2 : 0 ≤ v := hnn v (mem_sortEig_fst hv)
    have hs : 0 ≤ (pcaSortedVals eigh X weights).sum := by
      apply List.sum_nonneg
      intro y hy
      exact hnn y (mem_sortEig_fst hy)
    have heps : (0 : α) < eps16 := by norm_num [eps16]
    exact div_nonneg hv2 (by positivity)

/-- Amended C1: under a weight vector of matching length and nonzero
sum, and an eigendecomposition oracle returning `n_features`
nonnegative eigenvalues with their eigenvector columns, `weighted_pca`
returns `K = max 1 (min (searchsorted cumvar thr + 1) n_features)`
together with the `K` leading eigenvector columns and the `K` leading
eigenvalues floored at `eps_reg`; `K` satisfies `1 ≤ K ≤ n_features`,
it is the minimal index with `cumvar[K-1] ≥ threshold` whenever the
threshold is reached, and it is clamped to `n_features` when the
threshold is never reached. -/
theorem weighted_pca_k_minimal (eigh : List (List α) → List α × List (List α))
    (X : List (List α)) (weights : List α) (thr : α)
    (hlen : weights.length = X.length) (hsum : weights.sum ≠ 0)
    (hnn : ∀ v ∈ (eigh (pcaSigma X weights)).1, 0 ≤ v)
    (hcnt : ((eigh (pcaSigma X weights)).1).length = (X.headD []).length)
    (hvcnt : ((eigh (pcaSigma X weights)).2).length = (X.headD []).length)
    (hnf : 1 ≤ (X.headD []).length) :
    ∃ K, weighted_pca eigh X weights thr = Except.ok
        (((pcaSortedVals eigh X weights).take K).map
          (fun v => max v (if 0 < (pcaSortedVals eigh X weights).sum
            then eps8 * (pcaSortedVals eigh X weights).sum else eps8)),
         ((pcaEig eigh X weights).map Prod.snd).take K,
         pcaMu X weights, K) ∧
      1 ≤ K ∧ K ≤ (X.headD []).length ∧
      ((∃ i, i < (pcaCumvar eigh X weights).length ∧
          thr ≤ (pcaCumvar eigh X weights).getD i 0) →
        (thr ≤ (pcaCumvar eigh X weights).getD (K - 1) 0 ∧
          ∀ j, j + 1 < K → (pcaCumvar eigh X weights).getD j 0 < thr)) ∧
      ((∀ i, i < (pcaCumvar eigh X weights).length →
          (pcaCumvar eigh X weights).getD i 0 < thr) →
        K = (X.headD []).length) := by
  have hclen : (pcaCumvar eigh X weights).length = (X.headD []).length :=
    pcaCumvar_length eigh X weights hcnt hvcnt
  have hpw : (pcaCumvar eigh X weights).Pairwise (· ≤ ·) :=
    pcaCumvar_pairwise eigh X weights hnn
  have hcount := countP_sorted_lt thr (pcaCumvar eigh X weights) hpw
  have hjle : searchsorted (pcaCumvar eigh X weights) thr
      ≤ (pcaCumvar eigh X weights).length := by
    unfold searchsorted
    exact List.countP_le_length _
  refine ⟨max 1 (min (searchsorted (pcaCumvar eigh X weights) thr + 1)
    (X.headD []).length),
    weighted_pca_isOk eigh X weights thr hlen hsum, le_max_left _ _,
    by omega, ?_, ?_⟩
  · rintro ⟨i, hi, hthr⟩
    have hjlt : searchsorted (pcaCumvar eigh X weights) thr
        < (pcaCumvar eigh X weights).length := by
      rcases Nat.lt_or_ge (searchsorted (pcaCumvar eigh X weights) thr)
        ((pcaCumvar eigh X weights).length) with h | h
      · exact h
      · exfalso
        have hieq : i < searchsorted (pcaCumvar eigh X weights) thr := by omega
        have := hcount.1 i hieq
        exact absurd hthr (not_le.mpr this)
    have hK : max 1 (min (searchsorted (pcaCumvar eigh X weights) thr + 1)
        (X.headD []).length) = searchsorted (pcaCumvar eigh X weights) thr + 1 := by
      omega
    rw [hK]
    constructor
    · simpa using hcount.2 hjlt
    · intro j hj
      exact hcount.1 j (by omega)
  · intro hall
    have hjeq : searchsorted (pcaCumvar eigh X weights) thr
        = (pcaCumvar eigh X weights).length := by
      unfold searchsorted
      apply List.countP_eq_length.mpr
      intro a ha
      obtain ⟨i, hi, rfl⟩ := List.mem_iff_getElem.mp ha
      have := hall i (by omega)
      rw [← List.getD_eq_getElem (pcaCumvar eigh X weights) 0 hi]
      simpa using this
    omega

/-- Counterexample for C1 as stated: at the constant two-sample matrix
`[[5],[5]]` with unit weights (so the covariance is the zero matrix and
the only eigenvalue is 0), `weighted_pca` returns the floored
eigenvalue `1e-8`, not the leading eigenvalue 0. -/
theorem weighted_pca_flooring_cex :
    weighted_pca eighOfDiagonal [[(5 : ℚ)], [5]] [1, 1] (95 / 100)
      = Except.ok ([(1 : ℚ) / 100000000], [[(1 : ℚ)]], [(5 : ℚ)], 1) ∧
    pcaSortedVals eighOfDiagonal [[(5 : ℚ)], [5]] [1, 1] = [0] ∧
    ([(1 : ℚ) / 100000000] : List ℚ) ≠ [(0 : ℚ)] := by
  refine ⟨?_, ?_, by norm_num⟩
  · norm_num [weighted_pca, pcaSortedVals, pcaEig, pcaSigma, pcaNormW, pcaMu,
      npAverage, covSigma, Xc_of, matMulL, transposeL, dotL, symmetrize,
      eighOfDiagonal, sortEig, pcaCumvar, cumsum, searchsorted, eps16, eps8,
      List.range_succ]
  · norm_num [pcaSortedVals, pcaEig, pcaSigma, pcaNormW, pcaMu,
      npAverage, covSigma, Xc_of, matMulL, transposeL, dotL, symmetrize,
      eighOfDiagonal, sortEig, List.range_succ]

/-- Witness for the amended C1 at the same concrete input. -/
theorem weighted_pca_k_minimal_witness :
    (([(1 : ℚ), 1] : List ℚ).length = ([[(5 : ℚ)], [5]] : List (List ℚ)).length ∧
      ([(1 : ℚ), 1] : List ℚ).sum ≠ 0 ∧
      (∀ v ∈ (eighOfDiagonal (pcaSigma [[(5 : ℚ)], [5]] [1, 1])).1, 0 ≤ v) ∧
      ((eighOfDiagonal (pcaSigma [[(5 : ℚ)], [5]] [1, 1])).1).length
        = (([[(5 : ℚ)], [5]] : List (List ℚ)).headD []).length ∧
      ((eighOfDiagonal (pcaSigma [[(5 : ℚ)], [5]] [1, 1])).2).length
        = (([[(5 : ℚ)], [5]] : List (List ℚ)).headD []).length ∧
      1 ≤ (([[(5 : ℚ)], [5]] : List (List ℚ)).headD []).length) ∧
    (∃ K, weighted_pca eighOfDiagonal [[(5 : ℚ)], [5]] [1, 1] (95 / 100)
        = Except.ok
          (((pcaSortedVals eighOfDiagonal [[(5 : ℚ)], [5]] [1, 1]).take K).map
            (fun v => max v
              (if 0 < (pcaSortedVals eighOfDiagonal [[(5 : ℚ)], [5]] [1, 1]).sum
               then eps8 * (pcaSortedVals eighOfDiagonal [[(5 : ℚ)], [5]] [1, 1]).sum
               else eps8)),
           ((pcaEig eighOfDiagonal [[(5 : ℚ)], [5]] [1, 1]).map Prod.snd).take K,
           pcaMu [[(5 : ℚ)], [5]] [1, 1], K) ∧
        1 ≤ K ∧ K ≤ (([[(5 : ℚ)], [5]] : List (List ℚ)).headD []).length ∧
        ((∃ i, i < (pcaCumvar eighOfDiagonal [[(5 : ℚ)], [5]] [1, 1]).length ∧
            95 / 100 ≤ (pcaCumvar eighOfDiagonal [[(5 : ℚ)], [5]] [1, 1]).getD i 0) →
          (95 / 100 ≤ (pcaCumvar eighOfDiagonal [[(5 : ℚ)], [5]] [1, 1]).getD (K - 1) 0 ∧
            ∀ j, j + 1 < K →
              (pcaCumvar eighOfDiagonal [[(5 : ℚ)], [5]] [1, 1]).getD j 0 < 95 / 100)) ∧
        ((∀ i, i < (pcaCumvar eighOfDiagonal [[(5 : ℚ)], [5]] [1, 1]).length →
            (pcaCumvar eighOfDiagonal [[(5 : ℚ)], [5]] [1, 1]).getD i 0 < 95 / 100) →
          K = (([[(5 : ℚ)], [5]] : List (List ℚ)).headD []).length)) := by
  have h1 : ([(1 : ℚ), 1] : List ℚ).length = ([[(5 : ℚ)], [5]] : List (List ℚ)).length := by
    norm_num
  have h2 : ([(1 : ℚ), 1] : List ℚ).sum ≠ 0 := by norm_num
  have h3 : ∀ v ∈ (eighOfDiagonal (pcaSigma [[(5 : ℚ)], [5]] [1, 1])).1, 0 ≤ v := by
    norm_num [pcaSigma, pcaNormW, pcaMu, npAverage, covSigma, Xc_of, matMulL,
      transposeL, dotL, symmetrize, eighOfDiagonal, List.range_succ]
  have h4 : ((eighOfDiagonal (pcaSigma [[(5 : ℚ)], [5]] [1, 1])).1).length
      = (([[(5 : ℚ)], [5]] : List (List ℚ)).headD []).length := by
    norm_num [pcaSigma, pcaNormW, pcaMu, npAverage, covSigma, Xc_of, matMulL,
      transposeL, dotL, symmetrize, eighOfDiagonal, List.range_succ]
  have h5 : ((eighOfDiagonal (pcaSigma [[(5 : ℚ)], [5]] [1, 1])).2).length
      = (([[(5 : ℚ)], [5]] : List (List ℚ)).headD []).length := by
    norm_num [pcaSigma, pcaNormW, pcaMu, npAverage, covSigma, Xc_of, matMulL,
      transposeL, dotL, symmetrize, eighOfDiagonal, List.range_succ]
  have h6 : 1 ≤ (([[(5 : ℚ)], [5]] : List (List ℚ)).headD []).length := by norm_num
  exact ⟨⟨h1, h2, h3, h4, h5, h6⟩,
    weighted_pca_k_minimal eighOfDiagonal [[(5 : ℚ)], [5]] [1, 1] (95 / 100)
      h1 h2 h3 h4 h5 h6⟩

end ClaimsE

section ClaimsF

variable {α : Type} [LinearOrderedField α]

theorem build_state_vectors_row_length {β : Type} [LinearOrderedField β]
    (X_raw : List (List (List β))) (W : ℕ) :
    ∀ row ∈ build_state_vectors X_raw W,
      row.length = (X_raw.headD []).length - 2 * W := by
  intro row h
  simp only [build_state_vectors, List.mem_map] at h
  obtain ⟨yr, _, rfl⟩ := h
  simp

theorem build_state_vectors_length {β : Type} [LinearOrderedField β]
    (X_raw : List (List (List β))) (W : ℕ) :
    (build_state_vectors X_raw W).length = X_raw.length := by
  simp [build_state_vectors]

theorem prepareX_length (data : List (YearHourly α)) :
    (prepareX data).length = data.length := by
  simp [prepareX, prepareRaw0]

theorem prepareX_head_length (data : List (YearHourly α)) (hne : data ≠ []) :
    ((prepareX data).headD []).length = (commonDoys data).length := by
  cases data with
  | nil => exact absurd rfl hne
  | cons y0 rest => simp [prepareX, prepareRaw0]

/-- When alignment happens at all (≥ 2 fetched years), the flattened
sample matrix has exactly `n_years * (n_common_days - 2W)` rows: the
hypothesis of the C2 theorem below is the row count of the flattened
sample matrix. -/
theorem sample_matrix_row_count (data : List (YearHourly α)) (W : ℕ)
    (hne : data ≠ []) :
    ((build_state_vectors (prepareX data) W).flatten).length
      = data.length * ((commonDoys data).length - 2 * W) := by
  have hrowsU : ∀ row ∈ build_state_vectors (prepareX data) W,
      row.length = (commonDoys data).length - 2 * W := by
    intro row hrow
    rw [build_state_vectors_row_length (prepareX data) W row hrow,
      prepareX_head_length data hne]
  rw [flatten_length_uniform _ _ hrowsU, build_state_vectors_length,
    prepareX_length]

theorem valid_slice_eq_nil (W : ℕ) (common : List ℕ)
    (h : common.length ≤ 2 * W) : valid_slice W common = [] := by
  rw [valid_slice]
  split_ifs
  · rfl
  · have h0 : common.length - 2 * W = 0 := by omega
    rw [h0, List.take_zero]

theorem weighted_pca_empty_error
    (eigh : List (List α) → List α × List (List α)) (thr : α) :
    weighted_pca eigh ([] : List (List α)) [] thr
      = Except.error "Weights sum to zero, cannot be normalized" := by
  rw [weighted_pca, if_neg (by simp), if_pos (by simp [pcaNormW])]

theorem build_state_vectors_flatten_nil {β : Type} [LinearOrderedField β]
    (X_raw : List (List (List β))) (W : ℕ)
    (h : (X_raw.headD []).length ≤ 2 * W) :
    (build_state_vectors X_raw W).flatten = [] := by
  rw [List.flatten_eq_nil_iff]
  intro row hrow
  simp only [build_state_vectors, List.mem_map] at hrow
  obtain ⟨yr, _, rfl⟩ := hrow
  have h0 : (X_raw.headD []).length - 2 * W = 0 := by omega
  rw [h0, List.range_zero, List.map_nil]

theorem compute_weights_comb_flatten_nil (expf : α → α) (years : List ℤ)
    (ty td : ℤ) (ay ad : α) :
    ((compute_weights expf years ty [] td ay ad).2.2).flatten = [] := by
  rw [List.flatten_eq_nil_iff]
  intro row hrow
  simp only [compute_weights, List.map_nil, List.mem_map] at hrow
  obtain ⟨a, _, rfl⟩ := hrow
  rfl

/-- C2: whenever fewer than 2 usable samples remain after alignment
(`n_years * (n_common_days - 2W) < 2`, the row count of the flattened
sample matrix by `sample_matrix_row_count`), the prediction call fails
with a fatal error surfaced to the caller and produces no result: with
no fetched year the fetch-failure `RuntimeError`; with exactly one
fetched year the `KeyError` of line 81 (after `squeeze(drop=True)`
removed the singleton year dimension) — note one year is the only way
to get exactly one sample; and with ≥ 2 years but no valid center day
(zero samples) the zero-weight-sum error `np.average` raises inside
`weighted_pca`. -/
theorem predict_data_insufficient_error [FloorRing α] (expf sqrtf : α → α)
    (eigh : List (List α) → List α × List (List α))
    (data : List (YearHourly α)) (ty td : ℤ) (W : ℕ) (thr ay ad : α)
    (g : List (List α))
    (hlt : data.length * ((commonDoys data).length - 2 * W) < 2) :
    ∃ e, predictCore expf sqrtf eigh data ty td W thr ay ad g
      = Except.error e := by
  rcases data with _ | ⟨y1, rest1⟩
  · exact ⟨"Failed to fetch data", rfl⟩
  rcases rest1 with _ | ⟨y2, rest⟩
  · exact ⟨"KeyError: year", rfl⟩
  have hcz : (commonDoys (y1 :: y2 :: rest)).length ≤ 2 * W := by
    by_contra hgt
    push_neg at hgt
    have h1 : 1 ≤ (commonDoys (y1 :: y2 :: rest)).length - 2 * W := by omega
    have h2 : 2 ≤ (y1 :: y2 :: rest).length := by simp
    have h3 := Nat.mul_le_mul h2 h1
    omega
  have hX : (build_state_vectors (prepareX (y1 :: y2 :: rest)) W).flatten = [] :=
    build_state_vectors_flatten_nil _ _
      (by rw [prepareX_head_length _ (by simp)]; exact hcz)
  have hvs : valid_slice W (commonDoys (y1 :: y2 :: rest)) = [] :=
    valid_slice_eq_nil W _ hcz
  refine ⟨"Weights sum to zero, cannot be normalized", ?_⟩
  unfold predictCore
  rw [show (y1 :: y2 :: rest).isEmpty = false from rfl]
  simp only [Bool.false_eq_true, if_false]
  rw [prepare_daily_data, if_neg (by simp)]
  dsimp only
  rw [hvs, List.map_nil, compute_weights_comb_flatten_nil, hX,
    weighted_pca_empty_error]

/-- Witness for C2 at the concrete one-year history aligning to a
single usable sample. -/
theorem predict_data_insufficient_error_witness :
    (oneYearData.length * ((commonDoys (α := ℚ) oneYearData).length - 2 * 1) < 2) ∧
    (∃ e, predictCore (α := ℚ) (fun _ => 1) (fun _ => 0) eighOfDiagonal
      oneYearData 2021 2 1 (95 / 100) (1 / 2) (2 / 10) [[]]
        = Except.error e) :=
  ⟨by decide,
   predict_data_insufficient_error (fun _ => 1) (fun _ => 0) eighOfDiagonal
     oneYearData 2021 2 1 (95 / 100) (1 / 2) (2 / 10) [[]] (by decide)⟩

/-- C9: the prediction pipeline is a pure function of the fetched data,
the call parameters and the seed-derived random draw stream: two calls
with the same seed (hence the same standard-normal draws `prng seed`)
produce identical ensembles and identical statistics. -/
theorem predict_two_run_deterministic [FloorRing α] (expf sqrtf : α → α)
    (eigh : List (List α) → List α × List (List α))
    (data : List (YearHourly α)) (ty td : ℤ) (W : ℕ) (thr ay ad : α)
    (prng : ℕ → List (List α)) (seed1 seed2 : ℕ) (h : seed1 = seed2) :
    predictCore expf sqrtf eigh data ty td W thr ay ad (prng seed1)
      = predictCore expf sqrtf eigh data ty td W thr ay ad (prng seed2) := by
  rw [h]

/-- Witness for C9: two runs with the literal seed 42. -/
theorem predict_two_run_deterministic_witness :
    (42 = 42) ∧
    predictCore (α := ℚ) (fun _ => 1) (fun _ => 0) eighOfDiagonal oneYearData
        2021 2 1 (95 / 100) (1 / 2) (2 / 10) ((fun _ : ℕ => [([] : List ℚ)]) 42)
      = predictCore (α := ℚ) (fun _ => 1) (fun _ => 0) eighOfDiagonal oneYearData
        2021 2 1 (95 / 100) (1 / 2) (2 / 10) ((fun _ : ℕ => [([] : List ℚ)]) 42) :=
  ⟨rfl,
   predict_two_run_deterministic (fun _ => 1) (fun _ => 0) eighOfDiagonal
     oneYearData 2021 2 1 (95 / 100) (1 / 2) (2 / 10)
     (fun _ : ℕ => [([] : List ℚ)]) 42 42 rfl⟩

end ClaimsF

